import Mathlib

/-! # logg: compile-time gated logging front end

A shallow embedding of `include/logg/{levels,config,source,logg}.h` and of the
two `build_header` implementations (`src/posix_header.cpp`,
`src/win32_header.cpp`).

* A `char` array is a `List Char` of the array's length; the byte `NUL` ends a
  C string.  A `const char*` that points at text is the list of characters
  before the terminator; a pointer that may be null is an `Option`.
* The C library calls the code makes (`snprintf`, `strncpy`, `strftime`,
  `strrchr`) are given their ISO C meaning on such arrays.
* An output stream is identified by a number; the world maps every stream to
  the characters written to it so far.
* The clock, the thread id and the uninitialised stack array are inputs
  (`Host`).
-/

namespace logg

/-! ## levels.h -/

/-- `logg::OFF`. -/
def OFF : Nat := 0

/-- `logg::FATAL`. -/
def FATAL : Nat := 100

/-- `logg::ERROR`. -/
def ERROR : Nat := 200

/-- `logg::WARN`. -/
def WARN : Nat := 300

/-- `logg::INFO`. -/
def INFO : Nat := 400

/-- `logg::DEBUG`. -/
def DEBUG : Nat := 500

/-- `logg::TRACE`. -/
def TRACE : Nat := 600

/-- `logg::ALL`, `std::numeric_limits<unsigned>::max()`. -/
def ALL : Nat := 2 ^ 32 - 1

namespace detail

/-! ## C strings and the C library -/

/-- The terminating byte of a C string. -/
def NUL : Char := Char.ofNat 0

/-- The character `std::endl` puts on the stream. -/
def endl : Char := Char.ofNat 10

/-- Reading a `char*` as a C string (what `os << buf` prints): the characters
before the first `NUL`.  An array holding no `NUL` is read past its end, which
has no defined result. -/
def c_str (buf : List Char) : Option (List Char) :=
  if NUL ∈ buf then some (buf.takeWhile (fun c => c != NUL)) else none

/-- Storing `bytes` at the start of the array `buf`; the array keeps its
length. -/
def store (buf bytes : List Char) : List Char :=
  bytes.take buf.length ++ buf.drop bytes.length

/-- The call `snprintf(buf, size, fmt, ...)` where `text` is the fully formatted
output: at most `size - 1` characters are stored, followed by a `NUL` (nothing
at all when `size = 0`); the value returned is the length of the full text. -/
def snprintf (buf : List Char) (size : Nat) (text : List Char) : List Char × Nat :=
  if size = 0 then (buf, text.length)
  else (store buf (text.take (size - 1) ++ [NUL]), text.length)

/-- The call `strncpy(dest, src, count)`: exactly `count` bytes are stored, the
first `count` characters of `src`, padded with `NUL` when `src` is shorter; no
`NUL` is stored when `src` has `count` characters or more. -/
def strncpy (dest src : List Char) (count : Nat) : List Char :=
  store dest (src.take count ++ List.replicate (count - src.length) NUL)

/-- The call `strftime(buf, max, fmt, tm)` where `text` is the formatted time:
when text and terminator fit in `max` bytes they are stored and the text length
is returned; otherwise `0` is returned and the array contents are indeterminate
(`junk` is what the implementation left there). -/
def strftime (buf : List Char) (max : Nat) (text junk : List Char) : List Char × Nat :=
  if text.length + 1 ≤ max then (store buf (text ++ [NUL]), text.length)
  else (store buf (junk.take max), 0)

/-- The call `strrchr(str, ch)` for `ch != 0`: a pointer to the last occurrence
of `ch` in `str` (the text from that occurrence on, `ch` included), or the null
pointer when `ch` does not occur. -/
def strrchr : List Char → Char → Option (List Char)
  | [], _ => none
  | c :: cs, ch =>
    match strrchr cs ch with
    | some r => some r
    | none => if c = ch then some (c :: cs) else none

/-- Conversion `%u` applied to an `unsigned`. -/
def fmt_u (v : Nat) : List Char :=
  Nat.toDigits 10 (v % 2 ^ 32)

/-- Conversion `%d` applied to an `unsigned` argument: the 32 bits are read as
a two's complement `int`. -/
def fmt_d (v : Nat) : List Char :=
  if v % 2 ^ 32 < 2 ^ 31 then Nat.toDigits 10 (v % 2 ^ 32)
  else '-' :: Nat.toDigits 10 (2 ^ 32 - v % 2 ^ 32)

/-! ## config.h -/

/-- What the build passes in: the optional `LOGG_LOG_LEVEL` and whether
`NDEBUG` is defined. -/
structure Build where
  /-- The client's level, when given. -/
  LOGG_LOG_LEVEL : Option Nat
  /-- Whether `NDEBUG` is defined. -/
  NDEBUG : Bool

/-- The preprocessor symbol `LOGG_DETAIL_LOG_LEVEL`. -/
def LOGG_DETAIL_LOG_LEVEL (b : Build) : Nat :=
  match b.LOGG_LOG_LEVEL with
  | some l => l
  | none => if b.NDEBUG then ERROR else ALL

/-- The constant `constexpr const unsigned log_level`. -/
def log_level (b : Build) : Nat :=
  LOGG_DETAIL_LOG_LEVEL b % 2 ^ 32

/-! ## source.h -/

/-- The two platforms the library is written for. -/
inductive Platform where
  | posix
  | win32
  deriving DecidableEq, Repr

/-- The constant `logg::detail::separator`. -/
def separator : Platform → Char
  | .posix => '/'
  | .win32 => Char.ofNat 92

/-- The optional call-site information: nothing, `function` (a name), or
`source` (a file and a line). -/
inductive Location where
  | none
  | function (name : List Char)
  | source (file : List Char) (line : Nat)
  deriving DecidableEq, Repr

/-! ## posix_header.cpp, win32_header.cpp -/

/-- What the host supplies to one log call. -/
structure Host where
  /-- The local time formatted by `"%F %T"`. -/
  timestamp : List Char
  /-- What `strftime` leaves in the array when the time does not fit. -/
  junk : List Char
  /-- The value of `thread_id()`. -/
  tid : Nat
  /-- The initial contents of the local `char buf[128]`. -/
  stack : List Char

namespace posix

/-- The function `logg::detail::build_header` of `posix_header.cpp`: the array
afterwards and the value returned. -/
def build_header (h : Host) (buf : List Char) (size : Nat) : List Char × Nat :=
  let r := strftime buf size h.timestamp h.junk
  let off := r.2
  if off < size then
    let w := snprintf (r.1.drop off) (size - off) (" [".toList ++ fmt_u h.tid ++ "]".toList)
    (r.1.take off ++ w.1, (off + w.2) % 2 ^ 32)
  else
    (r.1, size)

end posix

namespace win32

/-- The function `logg::detail::build_header` of `win32_header.cpp`. -/
def build_header (h : Host) (buf : List Char) (size : Nat) : List Char × Nat :=
  let r := strftime buf size h.timestamp h.junk
  let off := r.2
  if off < size then
    let w := snprintf (r.1.drop off) (size - off) (" [".toList ++ fmt_u h.tid ++ "]".toList)
    (r.1.take off ++ w.1, (off + w.2 + 1) % 2 ^ 32)
  else
    (r.1, size)

end win32

/-- The implementation of `build_header` that is linked in. -/
def build_header : Platform → Host → List Char → Nat → List Char × Nat
  | .posix => posix.build_header
  | .win32 => win32.build_header

/-! ## logg.h: the level template -/

namespace level

/-- The overload `level<Level>::write_header(buf, size)`. -/
def write_header (Level : Nat) (buf : List Char) (size : Nat) : List Char :=
  if Level = FATAL then strncpy buf " FATAL - ".toList size
  else if Level = ERROR then strncpy buf " ERROR - ".toList size
  else if Level = WARN then strncpy buf " WARN - ".toList size
  else if Level = INFO then strncpy buf " INFO - ".toList size
  else if Level = DEBUG then strncpy buf " DEBUG - ".toList size
  else if Level = TRACE then strncpy buf " TRACE - ".toList size
  else (snprintf buf size (" CUSTOM(".toList ++ fmt_d Level ++ ") - ".toList)).1

/-- The overload `level<Level>::write_header(buf, size, fun)`. -/
def write_header_fun (Level : Nat) (buf : List Char) (size : Nat) (name : List Char) :
    List Char :=
  if Level = FATAL then
    (snprintf buf size (" FATAL \x7b".toList ++ name ++ "\x7d - ".toList)).1
  else if Level = ERROR then
    (snprintf buf size (" ERROR \x7b".toList ++ name ++ "\x7d - ".toList)).1
  else if Level = WARN then
    (snprintf buf size (" WARN \x7b".toList ++ name ++ "\x7d - ".toList)).1
  else if Level = INFO then
    (snprintf buf size (" INFO \x7b".toList ++ name ++ "\x7d - ".toList)).1
  else if Level = DEBUG then
    (snprintf buf size (" DEBUG \x7b".toList ++ name ++ "\x7d - ".toList)).1
  else if Level = TRACE then
    (snprintf buf size (" TRACE \x7b".toList ++ name ++ "\x7d - ".toList)).1
  else
    (snprintf buf size (" CUSTOM(".toList ++ fmt_d Level ++ ") \x7b".toList ++ name ++
      "\x7d - ".toList)).1

/-- The text `"<tag> {<file>:<line>} - "` of the third overload, given the
text in front of the opening brace. -/
def src_text (tag file : List Char) (line : Nat) : List Char :=
  tag ++ "\x7b".toList ++ file ++ ":".toList ++ fmt_d line ++ "\x7d - ".toList

/-- The overload `level<Level>::write_header(buf, size, file, line)`.  The
pointer `file` may be null; `%s` applied to a null pointer has no defined
result. -/
def write_header_src (Level : Nat) (buf : List Char) (size : Nat)
    (file : Option (List Char)) (line : Nat) : Option (List Char) :=
  match file with
  | Option.none => Option.none
  | some f =>
    if Level = FATAL then some (snprintf buf size (src_text " FATAL ".toList f line)).1
    else if Level = ERROR then some (snprintf buf size (src_text " ERROR ".toList f line)).1
    else if Level = WARN then some (snprintf buf size (src_text " WARN ".toList f line)).1
    else if Level = INFO then some (snprintf buf size (src_text " INFO ".toList f line)).1
    else if Level = DEBUG then some (snprintf buf size (src_text " DEBUG ".toList f line)).1
    else if Level = TRACE then some (snprintf buf size (src_text " TRACE ".toList f line)).1
    else some (snprintf buf size
      (src_text (" CUSTOM(".toList ++ fmt_d Level ++ ") ".toList) f line)).1

end level

/-! ## logg.h: the proxy template -/

/-- Identity of a `std::basic_ostream` object. -/
abbrev Stream := Nat

/-- The characters written so far to every stream. -/
abbrev World := Stream → List Char

/-- The statement `os << text`. -/
def put (w : World) (os : Stream) (text : List Char) : World :=
  Function.update w os (w os ++ text)

/-- A value handed to `operator<<`. -/
inductive Value where
  | str (s : List Char)
  | int (i : Int)
  | chr (c : Char)
  deriving DecidableEq, Repr

/-- The text the stream prints for a value. -/
def Value.text : Value → List Char
  | .str s => s
  | .int i => (toString i).toList
  | .chr c => [c]

/-- The remaining capacity `sizeof (buf) - off` passed as an `unsigned`. -/
def remaining (off : Nat) : Nat :=
  (((128 : Int) - (off : Int)) % (2 ^ 32 : Int)).toNat

/-- The local array of the constructor `proxy(os)` of the enabled
specialization, as it is when handed to `os << buf`. -/
def header_buf (pf : Platform) (Level : Nat) (h : Host) : List Char :=
  let r := build_header pf h h.stack 128
  let off := r.2
  r.1.take off ++ level.write_header Level (r.1.drop off) (remaining off)

/-- The local array of the constructor `proxy(os, fun)`. -/
def header_buf_fun (pf : Platform) (Level : Nat) (h : Host) (name : List Char) : List Char :=
  let r := build_header pf h h.stack 128
  let off := r.2
  r.1.take off ++ level.write_header_fun Level (r.1.drop off) (remaining off) name

/-- The local array of the constructor `proxy(os, src)`; the file argument is
`std::strrchr(src.file, separator)`. -/
def header_buf_src (pf : Platform) (Level : Nat) (h : Host) (file : List Char) (line : Nat) :
    Option (List Char) :=
  let r := build_header pf h h.stack 128
  let off := r.2
  (level.write_header_src Level (r.1.drop off) (remaining off)
    (strrchr file (separator pf)) line).map (fun b => r.1.take off ++ b)

/-- The text an enabled proxy puts on the stream when constructed. -/
def line_header (pf : Platform) (Level : Nat) (h : Host) : Location → Option (List Char)
  | .none => c_str (header_buf pf Level h)
  | .function name => c_str (header_buf_fun pf Level h name)
  | .source file line => (header_buf_src pf Level h file line).bind c_str

/-- The class template `detail::proxy<Level, Char, Traits, Enable>`: the
primary template has no state, the `true` specialization holds the stream. -/
inductive proxy : Bool → Type where
  | inert : proxy false
  | active (os : Stream) : proxy true

/-- The three constructors of either form of the proxy. -/
def proxy.ctor (pf : Platform) (Level : Nat) (h : Host) :
    (Enable : Bool) → Stream → Location → World → Option (proxy Enable × World)
  | false, _, _, w => some (proxy.inert, w)
  | true, os, loc, w =>
    match line_header pf Level h loc with
    | Option.none => Option.none
    | some t => some (proxy.active os, put w os t)

/-- The two `operator<<` overloads: the proxy returned and the world. -/
def proxy.shl : {Enable : Bool} → proxy Enable → Value → World → proxy Enable × World
  | _, proxy.active os, v, w => (proxy.active os, put w os v.text)
  | _, proxy.inert, _, w => (proxy.inert, w)

/-- The destructor. -/
def proxy.dtor : {Enable : Bool} → proxy Enable → World → World
  | _, proxy.active os, w => put w os [endl]
  | _, proxy.inert, w => w

/-- Streaming a sequence of values, left to right. -/
def proxy.stream {Enable : Bool} (p : proxy Enable) (vs : List Value) (w : World) :
    proxy Enable × World :=
  vs.foldl (fun s v => s.1.shl v s.2) (p, w)

end detail

/-- The alias template `logg::proxy<Level, ...>` picks the form. -/
def proxy_enable (b : detail.Build) (Level : Nat) : Bool :=
  decide (Level ≤ detail.log_level b)

/-- The entry points `logg::log<Level>(os)`, `(os, fun)`, `(os, src)`. -/
def log (b : detail.Build) (pf : detail.Platform) (Level : Nat) (h : detail.Host)
    (os : detail.Stream) (loc : detail.Location) (w : detail.World) :
    Option (detail.proxy (proxy_enable b Level) × detail.World) :=
  detail.proxy.ctor pf Level h (proxy_enable b Level) os loc w

/-- A full statement `logg::log<Level>(os, loc) << v1 << ... << vn;`: the
proxy is made, the values are streamed, the temporary is destroyed. -/
def statement (b : detail.Build) (pf : detail.Platform) (Level : Nat) (h : detail.Host)
    (os : detail.Stream) (loc : detail.Location) (vs : List detail.Value) (w : detail.World) :
    Option detail.World :=
  match log b pf Level h os loc w with
  | none => none
  | some (p, w1) =>
    let r := p.stream vs w1
    some (r.1.dtor r.2)

end logg

open logg logg.detail

/-! ## Well-formed inputs -/

/-- A host as the library meets it: a 19 character `YYYY-MM-DD HH:MM:SS`
timestamp free of terminators, a thread id that fits an `unsigned`, and a stack
array of 128 bytes. -/
def logg.detail.Host.wf (h : Host) : Prop :=
  h.timestamp.length = 19 ∧ NUL ∉ h.timestamp ∧ h.tid < 2 ^ 32 ∧ h.stack.length = 128

instance (h : Host) : Decidable h.wf := by
  unfold Host.wf
  infer_instance

/-- The text `" [<tid>]"` that `build_header` formats. -/
def tid_text (tid : Nat) : List Char :=
  " [".toList ++ fmt_u tid ++ "]".toList

/-- The text the overload `write_header(buf, size, fun)` formats for a level
and a function name, before any truncation: the format string of the level's
specialization with `%s` (and `%d` for a custom level) filled in. -/
def fun_text (Level : Nat) (name : List Char) : List Char :=
  if Level = FATAL then " FATAL \x7b".toList ++ name ++ "\x7d - ".toList
  else if Level = ERROR then " ERROR \x7b".toList ++ name ++ "\x7d - ".toList
  else if Level = WARN then " WARN \x7b".toList ++ name ++ "\x7d - ".toList
  else if Level = INFO then " INFO \x7b".toList ++ name ++ "\x7d - ".toList
  else if Level = DEBUG then " DEBUG \x7b".toList ++ name ++ "\x7d - ".toList
  else if Level = TRACE then " TRACE \x7b".toList ++ name ++ "\x7d - ".toList
  else " CUSTOM(".toList ++ fmt_d Level ++ ") \x7b".toList ++ name ++ "\x7d - ".toList

/-! ## Locations whose file name lookup succeeds -/

/-- A location the enabled constructors can format: a `source` must name a
file that contains the platform separator. -/
def logg.detail.Location.ok (pf : Platform) : Location → Prop
  | Location.source file _ => separator pf ∈ file
  | _ => True

instance (pf : Platform) (loc : Location) : Decidable (loc.ok pf) := by
  cases loc <;> unfold Location.ok <;> infer_instance

/-! ## Sample inputs -/

/-- A host at 2024-01-02 03:04:05 on thread 1234, the stack array filled with
the letter `x`. -/
def sample_host : Host :=
  ⟨"2024-01-02 03:04:05".toList, "2024-01-02 03:04:05".toList, 1234, List.replicate 128 'x'⟩

/-- A world in which nothing has been written yet. -/
def empty_world : World := fun _ => []

/-- The values `"a="`, `3`, `", b="`, `5`. -/
def sample_values : List Value :=
  [Value.str "a=".toList, Value.int 3, Value.str ", b=".toList, Value.int 5]

/-! # Theorems -/

/-! ## Arrays and C strings -/

theorem store_length (buf bytes : List Char) : (store buf bytes).length = buf.length := by
  unfold store
  simp only [List.length_append, List.length_take, List.length_drop]
  omega

theorem store_fits (buf bytes : List Char) (h : bytes.length ≤ buf.length) :
    store buf bytes = bytes ++ buf.drop bytes.length := by
  unfold store
  rw [List.take_of_length_le h]

theorem c_str_terminated (a rest : List Char) (h : NUL ∉ a) :
    c_str (a ++ NUL :: rest) = some a := by
  unfold c_str
  have hmem : NUL ∈ a ++ NUL :: rest := by simp
  rw [if_pos hmem]
  congr 1
  rw [List.takeWhile_append_of_pos]
  · simp
  · intro c hc
    have : c ≠ NUL := fun e => h (e ▸ hc)
    simpa using this

theorem digitChar_ne_NUL (m : Nat) (h : m < 10) : Nat.digitChar m ≠ NUL := by
  interval_cases m <;> decide

theorem toDigitsCore_no_NUL (f : Nat) : ∀ (n : Nat) (acc : List Char),
    NUL ∉ acc → NUL ∉ Nat.toDigitsCore 10 f n acc := by
  induction f with
  | zero => intro n acc h; simpa [Nat.toDigitsCore] using h
  | succ f ih =>
    intro n acc h
    have hcons : NUL ∉ Nat.digitChar (n % 10) :: acc := by
      intro hm
      rcases List.mem_cons.1 hm with e | e
      · exact digitChar_ne_NUL _ (Nat.mod_lt _ (by decide)) e.symm
      · exact h e
    simp only [Nat.toDigitsCore]
    split
    · exact hcons
    · exact ih _ _ hcons

theorem toDigits_no_NUL (n : Nat) : NUL ∉ Nat.toDigits 10 n := by
  unfold Nat.toDigits
  exact toDigitsCore_no_NUL _ _ _ (by simp)

theorem toDigits_length_le (n : Nat) (h : n < 2 ^ 32) : (Nat.toDigits 10 n).length ≤ 10 := by
  unfold Nat.toDigits
  exact Nat.toDigitsCore_length 10 (by decide) (n + 1) n 10 (by omega) (by decide)

theorem fmt_u_of_lt (n : Nat) (h : n < 2 ^ 32) : fmt_u n = Nat.toDigits 10 n := by
  unfold fmt_u
  rw [Nat.mod_eq_of_lt h]

theorem tid_text_length (tid : Nat) : (tid_text tid).length = 3 + (fmt_u tid).length := by
  simp [tid_text]
  omega

theorem fmt_u_length_le (tid : Nat) : (fmt_u tid).length ≤ 10 :=
  toDigits_length_le _ (Nat.mod_lt _ (by decide))

theorem tid_text_no_NUL (tid : Nat) : NUL ∉ tid_text tid := by
  have h := toDigits_no_NUL (tid % 2 ^ 32)
  simp only [tid_text, fmt_u, List.mem_append, not_or]
  exact ⟨⟨by decide, h⟩, by decide⟩

/-! ## The header builder on the proxy's array -/

theorem strftime_fits (buf text junk : List Char) (max : Nat)
    (h1 : text.length + 1 ≤ max) (h2 : max ≤ buf.length) :
    strftime buf max text junk = (text ++ NUL :: buf.drop (text.length + 1), text.length) := by
  unfold strftime
  rw [if_pos h1, store_fits _ _ (by simp; omega)]
  simp

theorem snprintf_fits (buf text : List Char) (size : Nat)
    (h1 : text.length + 1 ≤ size) (h2 : size ≤ buf.length) :
    snprintf buf size text = (text ++ NUL :: buf.drop (text.length + 1), text.length) := by
  unfold snprintf
  rw [if_neg (by omega), List.take_of_length_le (by omega), store_fits _ _ (by simp; omega)]
  simp

theorem posix_build_header_128 (h : Host) (hw : h.wf) :
    posix.build_header h h.stack 128 =
      (h.timestamp ++ tid_text h.tid ++ NUL :: h.stack.drop (23 + (fmt_u h.tid).length),
        22 + (fmt_u h.tid).length) := by
  obtain ⟨hts, _, _, hst⟩ := hw
  have hd := fmt_u_length_le h.tid
  have htl := tid_text_length h.tid
  have hsf : strftime h.stack 128 h.timestamp h.junk
      = (h.timestamp ++ NUL :: h.stack.drop 20, 19) := by
    rw [strftime_fits h.stack h.timestamp h.junk 128 (by omega) (by omega), hts]
  have htake : (h.timestamp ++ NUL :: h.stack.drop 20).take 19 = h.timestamp := by
    rw [List.take_append_of_le_length (by omega), List.take_of_length_le (by omega)]
  have hdrop : (h.timestamp ++ NUL :: h.stack.drop 20).drop 19 = NUL :: h.stack.drop 20 := by
    rw [List.drop_append_of_le_length (by omega), List.drop_of_length_le (by omega)]
    simp
  have hsn := snprintf_fits (NUL :: h.stack.drop 20) (tid_text h.tid) 109 (by omega)
    (by simp; omega)
  unfold posix.build_header
  simp only [hsf, htake, hdrop]
  rw [if_pos (by omega)]
  change (h.timestamp ++ (snprintf (NUL :: h.stack.drop 20) 109 (tid_text h.tid)).1,
    (19 + (snprintf (NUL :: h.stack.drop 20) 109 (tid_text h.tid)).2) % 2 ^ 32) = _
  rw [hsn]
  simp only [htl, List.drop_succ_cons, List.drop_drop, List.append_assoc]
  have e1 : 20 + (3 + (fmt_u h.tid).length) = 23 + (fmt_u h.tid).length := by omega
  have e2 : (19 + (3 + (fmt_u h.tid).length)) % 2 ^ 32 = 22 + (fmt_u h.tid).length := by omega
  rw [e1, e2]

theorem snprintf_region (buf text : List Char) (size : Nat)
    (h1 : 1 ≤ size) (h2 : size ≤ buf.length) :
    (snprintf buf size text).1 =
      text.take (size - 1) ++ NUL :: buf.drop (min (size - 1) text.length + 1) := by
  unfold snprintf
  rw [if_neg (by omega), store_fits _ _ (by simp; omega)]
  simp

theorem strncpy_region (dest src : List Char) (count : Nat)
    (h1 : src.length < count) (h2 : count ≤ dest.length) :
    strncpy dest src count =
      src ++ NUL :: (List.replicate (count - src.length - 1) NUL ++ dest.drop count) := by
  unfold strncpy
  have hrep : List.replicate (count - src.length) NUL
      = NUL :: List.replicate (count - src.length - 1) NUL := by
    obtain ⟨k, hk⟩ : ∃ k, count - src.length = k + 1 := ⟨count - src.length - 1, by omega⟩
    rw [hk, List.replicate_succ]
    simp
  rw [List.take_of_length_le (by omega), store_fits _ _ (by simp; omega), hrep]
  have hlen : (src ++ NUL :: List.replicate (count - src.length - 1) NUL).length = count := by
    simp
    omega
  rw [hlen]
  simp

theorem c_str_defined (buf : List Char) (h : NUL ∈ buf) : ∃ t, c_str buf = some t := by
  unfold c_str
  rw [if_pos h]
  exact ⟨_, rfl⟩

theorem snprintf_has_NUL (buf text : List Char) (size : Nat)
    (h1 : 1 ≤ size) (h2 : size ≤ buf.length) : NUL ∈ (snprintf buf size text).1 := by
  rw [snprintf_region buf text size h1 h2]
  simp

theorem strncpy_has_NUL (dest src : List Char) (count : Nat)
    (h1 : src.length < count) (h2 : count ≤ dest.length) : NUL ∈ strncpy dest src count := by
  rw [strncpy_region dest src count h1 h2]
  simp

theorem write_header_has_NUL (Level : Nat) (buf : List Char) (size : Nat)
    (h1 : 10 ≤ size) (h2 : size ≤ buf.length) : NUL ∈ level.write_header Level buf size := by
  unfold level.write_header
  split_ifs
  all_goals first
    | exact strncpy_has_NUL _ _ _ (by simp; omega) h2
    | exact snprintf_has_NUL _ _ _ (by omega) h2

theorem write_header_fun_has_NUL (Level : Nat) (buf : List Char) (size : Nat) (name : List Char)
    (h1 : 1 ≤ size) (h2 : size ≤ buf.length) :
    NUL ∈ level.write_header_fun Level buf size name := by
  unfold level.write_header_fun
  split_ifs
  all_goals exact snprintf_has_NUL _ _ _ h1 h2

theorem write_header_src_has_NUL (Level : Nat) (buf : List Char) (size : Nat)
    (file : List Char) (line : Nat) (h1 : 1 ≤ size) (h2 : size ≤ buf.length) :
    ∃ b, level.write_header_src Level buf size (some file) line = some b ∧ NUL ∈ b := by
  unfold level.write_header_src
  simp only
  split_ifs
  all_goals exact ⟨_, rfl, snprintf_has_NUL _ _ _ h1 h2⟩

/-- The array and the offset after `build_header` on a well-formed host, split
at the offset. -/
theorem posix_split (h : Host) (hw : h.wf) :
    ((build_header Platform.posix h h.stack 128).1.take
        (build_header Platform.posix h h.stack 128).2 = h.timestamp ++ tid_text h.tid) ∧
    ((build_header Platform.posix h h.stack 128).1.drop
        (build_header Platform.posix h h.stack 128).2
        = NUL :: h.stack.drop (23 + (fmt_u h.tid).length)) ∧
    remaining (build_header Platform.posix h h.stack 128).2 = 106 - (fmt_u h.tid).length ∧
    (NUL :: h.stack.drop (23 + (fmt_u h.tid).length)).length = 106 - (fmt_u h.tid).length := by
  have hb : build_header Platform.posix h h.stack 128 = posix.build_header h h.stack 128 := rfl
  rw [hb, posix_build_header_128 h hw]
  obtain ⟨hts, _, _, hst⟩ := hw
  have hd := fmt_u_length_le h.tid
  have htl := tid_text_length h.tid
  have hlen : (h.timestamp ++ tid_text h.tid).length = 22 + (fmt_u h.tid).length := by
    rw [List.length_append]
    omega
  refine ⟨?_, ?_, ?_, ?_⟩
  · simp only
    rw [← hlen, List.take_left]
  · simp only
    rw [← hlen, List.drop_left]
  · simp only [remaining]
    omega
  · simp only [List.length_cons, List.length_drop]
    omega

/-! ## Either platform: the array keeps its length, the offset stays small -/

theorem snprintf_length (buf text : List Char) (size : Nat) :
    (snprintf buf size text).1.length = buf.length := by
  unfold snprintf
  split_ifs
  · rfl
  · exact store_length _ _

theorem snprintf_returns (buf text : List Char) (size : Nat) :
    (snprintf buf size text).2 = text.length := by
  unfold snprintf
  split_ifs <;> rfl

theorem strftime_length (buf text junk : List Char) (max : Nat) :
    (strftime buf max text junk).1.length = buf.length := by
  unfold strftime
  split_ifs <;> exact store_length _ _

theorem at_offset_length (buf region : List Char) (off : Nat)
    (h : region.length = (buf.drop off).length) :
    (buf.take off ++ region).length = buf.length := by
  rw [List.length_append, h, List.length_take, List.length_drop]
  omega

theorem build_header_length (pf : Platform) (h : Host) (buf : List Char) (size : Nat) :
    (build_header pf h buf size).1.length = buf.length := by
  cases pf
  · show (posix.build_header h buf size).1.length = buf.length
    unfold posix.build_header
    simp only
    split_ifs
    · rw [at_offset_length _ _ _ (snprintf_length _ _ _)]
      exact strftime_length _ _ _ _
    · exact strftime_length _ _ _ _
  · show (win32.build_header h buf size).1.length = buf.length
    unfold win32.build_header
    simp only
    split_ifs
    · rw [at_offset_length _ _ _ (snprintf_length _ _ _)]
      exact strftime_length _ _ _ _
    · exact strftime_length _ _ _ _

theorem build_header_off_le (pf : Platform) (h : Host) (hw : h.wf) :
    (build_header pf h h.stack 128).2 ≤ 33 := by
  obtain ⟨hts, _, _, hst⟩ := hw
  have hd := fmt_u_length_le h.tid
  have htl := tid_text_length h.tid
  have hsf : (strftime h.stack 128 h.timestamp h.junk).2 = 19 := by
    rw [strftime_fits h.stack h.timestamp h.junk 128 (by omega) (by omega), hts]
  cases pf
  · show (posix.build_header h h.stack 128).2 ≤ 33
    unfold posix.build_header
    simp only [hsf, snprintf_returns]
    rw [if_pos (by omega)]
    change (19 + (tid_text h.tid).length) % 2 ^ 32 ≤ 33
    omega
  · show (win32.build_header h h.stack 128).2 ≤ 33
    unfold win32.build_header
    simp only [hsf, snprintf_returns]
    rw [if_pos (by omega)]
    change (19 + (tid_text h.tid).length + 1) % 2 ^ 32 ≤ 33
    omega

theorem remaining_of_le (off : Nat) (h : off ≤ 128) : remaining off = 128 - off := by
  unfold remaining
  omega

/-- On a well-formed host the region handed to `write_header` has exactly the
capacity that is passed along, and that capacity is at least 95. -/
theorem region_capacity (pf : Platform) (h : Host) (hw : h.wf) :
    95 ≤ remaining (build_header pf h h.stack 128).2 ∧
    remaining (build_header pf h h.stack 128).2 =
      ((build_header pf h h.stack 128).1.drop (build_header pf h h.stack 128).2).length := by
  have hoff := build_header_off_le pf h hw
  have hlen := build_header_length pf h h.stack 128
  rw [remaining_of_le _ (by omega), List.length_drop, hlen, hw.2.2.2]
  omega

theorem strrchr_eq_none_iff (s : List Char) (ch : Char) : strrchr s ch = none ↔ ch ∉ s := by
  induction s with
  | nil => simp [strrchr]
  | cons c cs ih =>
    unfold strrchr
    cases hr : strrchr cs ch with
    | some r =>
      have : ¬ ch ∉ cs := fun hn => by
        rw [ih.2 hn] at hr
        exact Option.noConfusion hr
      simp only [List.mem_cons, not_or]
      constructor
      · intro hx
        exact Option.noConfusion hx
      · intro hx
        exact absurd hx.2 this
    | none =>
      have hcs := ih.1 hr
      simp only [List.mem_cons, not_or]
      by_cases hc : c = ch
      · simp [hc]
      · simp only [if_neg hc, true_iff]
        exact ⟨fun e => hc e.symm, hcs⟩

theorem line_header_defined (pf : Platform) (Level : Nat) (h : Host) (hw : h.wf)
    (loc : Location) (hl : loc.ok pf) : ∃ t, line_header pf Level h loc = some t := by
  obtain ⟨hcap, hreg⟩ := region_capacity pf h hw
  cases loc with
  | none =>
    apply c_str_defined
    unfold header_buf
    simp only [List.mem_append]
    exact Or.inr (write_header_has_NUL _ _ _ (by omega) (by omega))
  | function name =>
    apply c_str_defined
    unfold header_buf_fun
    simp only [List.mem_append]
    exact Or.inr (write_header_fun_has_NUL _ _ _ _ (by omega) (by omega))
  | source file line =>
    obtain ⟨f, hf⟩ : ∃ f, strrchr file (separator pf) = some f := by
      cases hs : strrchr file (separator pf) with
      | none => exact absurd hl ((strrchr_eq_none_iff _ _).1 hs)
      | some f => exact ⟨f, rfl⟩
    obtain ⟨bb, hb, hn⟩ := write_header_src_has_NUL Level
      ((build_header pf h h.stack 128).1.drop (build_header pf h h.stack 128).2)
      (remaining (build_header pf h h.stack 128).2) f line (by omega) (by omega)
    obtain ⟨t, ht⟩ := c_str_defined
      ((build_header pf h h.stack 128).1.take (build_header pf h h.stack 128).2 ++ bb)
      (by simp [hn])
    refine ⟨t, ?_⟩
    show (header_buf_src pf Level h file line).bind c_str = some t
    unfold header_buf_src
    simp only [hf, hb, Option.map_some', Option.some_bind]
    exact ht

/-! ## The proxy -/

theorem put_put (w : World) (os : Stream) (a c : List Char) :
    put (put w os a) os c = put w os (a ++ c) := by
  unfold put
  simp [Function.update_same, List.append_assoc]

theorem put_same (w : World) (os : Stream) (a : List Char) : put w os a os = w os ++ a := by
  unfold put
  simp

theorem put_other (w : World) (os s : Stream) (a : List Char) (hs : s ≠ os) :
    put w os a s = w s := by
  unfold put
  simp [Function.update_noteq hs]

theorem stream_cons {e : Bool} (p : proxy e) (v : Value) (vs : List Value) (w : World) :
    p.stream (v :: vs) w = (p.shl v w).1.stream vs (p.shl v w).2 := rfl

theorem stream_inert (p : proxy false) (vs : List Value) (w : World) :
    p.stream vs w = (p, w) := by
  cases p
  induction vs with
  | nil => rfl
  | cons v vs ih =>
    rw [stream_cons]
    exact ih

theorem stream_active (os : Stream) (vs : List Value) (w : World) :
    (proxy.active os).stream vs w
      = (proxy.active os, put w os (vs.map Value.text).flatten) := by
  induction vs generalizing w with
  | nil =>
    show (proxy.active os, w) = _
    congr 1
    funext s
    by_cases hs : s = os
    · subst hs
      simp [put_same]
    · simp [put_other _ _ _ _ hs]
  | cons v vs ih =>
    rw [stream_cons]
    show (proxy.active os).stream vs (put w os v.text) = _
    rw [ih, put_put]
    simp

theorem statement_as (b : Build) (pf : Platform) (Level : Nat) (h : Host) (os : Stream)
    (loc : Location) (vs : List Value) (w : World) (e : Bool)
    (he : proxy_enable b Level = e) :
    statement b pf Level h os loc vs w =
      (proxy.ctor pf Level h e os loc w).map
        (fun r => (r.1.stream vs r.2).1.dtor (r.1.stream vs r.2).2) := by
  subst he
  unfold statement log
  cases proxy.ctor pf Level h (proxy_enable b Level) os loc w with
  | none => rfl
  | some r => rfl

theorem statement_suppressed (b : Build) (pf : Platform) (Level : Nat) (h : Host) (os : Stream)
    (loc : Location) (vs : List Value) (w : World) (he : proxy_enable b Level = false) :
    statement b pf Level h os loc vs w = some w := by
  rw [statement_as b pf Level h os loc vs w false he]
  simp only [proxy.ctor, Option.map_some', stream_inert]
  rfl

theorem statement_active (b : Build) (pf : Platform) (Level : Nat) (h : Host) (os : Stream)
    (loc : Location) (vs : List Value) (w : World) (he : proxy_enable b Level = true)
    (hdr : List Char) (hh : line_header pf Level h loc = some hdr) :
    statement b pf Level h os loc vs w =
      some (put w os (hdr ++ (vs.map Value.text).flatten ++ [endl])) := by
  rw [statement_as b pf Level h os loc vs w true he]
  simp only [proxy.ctor, hh, Option.map_some', stream_active, proxy.dtor, put_put,
    List.append_assoc]

theorem log_level_explicit (T : Nat) (nd : Bool) (hT : T < 2 ^ 32) :
    log_level ⟨some T, nd⟩ = T := by
  unfold log_level LOGG_DETAIL_LOG_LEVEL
  exact Nat.mod_eq_of_lt hT

theorem sample_host_wf : sample_host.wf :=
  ⟨rfl, by decide, by decide, rfl⟩

/-! ## Gating -/

theorem proxy_enable_iff (T : Nat) (nd : Bool) (hT : T < 2 ^ 32) (S : Nat) :
    proxy_enable ⟨some T, nd⟩ S = true ↔ S ≤ T := by
  unfold proxy_enable
  rw [log_level_explicit T nd hT]
  exact decide_eq_true_iff

theorem active_ctor (pf : Platform) (Level : Nat) (h : Host) (os : Stream) (loc : Location)
    (w : World) (hdr : List Char) (hh : line_header pf Level h loc = some hdr) :
    ∀ e : Bool, e = true → ∃ p : proxy e,
      proxy.ctor pf Level h e os loc w = some (p, put w os hdr) ∧
      (∀ v w1, p.shl v w1 = (p, put w1 os v.text)) ∧
      (∀ w1, p.dtor w1 = put w1 os [endl]) := by
  intro e he
  subst he
  refine ⟨proxy.active os, ?_, fun _ _ => rfl, fun _ => rfl⟩
  simp only [proxy.ctor, hh]

theorem inert_ctor (pf : Platform) (Level : Nat) (h : Host) (os : Stream) (loc : Location)
    (w : World) : ∀ e : Bool, e = false → ∃ p : proxy e,
      proxy.ctor pf Level h e os loc w = some (p, w) ∧
      (∀ vs w1, p.stream vs w1 = (p, w1)) ∧
      (∀ w1, p.dtor w1 = w1) := by
  intro e he
  subst he
  exact ⟨proxy.inert, rfl, fun vs w1 => stream_inert _ vs w1, fun _ => rfl⟩

/-- C1: for every severity `S` and every threshold `T` below `2^32` the proxy
form chosen for `S` is the active one exactly when `S ≤ T`; a whole log
statement at severity `S` (any location the constructor can format, any
streamed values, either platform) completes and changes the contents of its
sink exactly when `S ≤ T`, leaving every stream as it was otherwise.  So
`S = T` is active, and under `T = INFO` a `TRACE` call is suppressed while an
`INFO` call is active. -/
theorem proxy_active_iff_severity_le_threshold (S T : Nat) (hT : T < 2 ^ 32) (nd : Bool)
    (pf : Platform) (h : Host) (hw : h.wf) (os : Stream) (loc : Location) (hl : loc.ok pf)
    (vs : List Value) (w : World) :
    (proxy_enable ⟨some T, nd⟩ S = true ↔ S ≤ T) ∧
    (∃ w1, statement ⟨some T, nd⟩ pf S h os loc vs w = some w1 ∧
      (w1 os ≠ w os ↔ S ≤ T) ∧ (¬ S ≤ T → w1 = w)) ∧
    proxy_enable ⟨some T, nd⟩ T = true ∧
    proxy_enable ⟨some INFO, nd⟩ TRACE = false ∧
    proxy_enable ⟨some INFO, nd⟩ INFO = true := by
  have hiff := proxy_enable_iff T nd hT
  refine ⟨hiff S, ?_, (hiff T).2 (Nat.le_refl T), by cases nd <;> decide,
    by cases nd <;> decide⟩
  by_cases hle : S ≤ T
  · obtain ⟨hdr, hh⟩ := line_header_defined pf S h hw loc hl
    refine ⟨_, statement_active _ pf S h os loc vs w ((hiff S).2 hle) hdr hh, ?_, ?_⟩
    · rw [put_same]
      simp [hle]
    · intro hn
      exact absurd hle hn
  · have he : proxy_enable ⟨some T, nd⟩ S = false := by
      cases hb : proxy_enable ⟨some T, nd⟩ S with
      | false => rfl
      | true => exact absurd ((hiff S).1 hb) hle
    refine ⟨w, statement_suppressed _ pf S h os loc vs w he, ?_, fun _ => rfl⟩
    simp [hle]

/-- Witness for C1: an `INFO` statement under threshold `INFO`. -/
theorem proxy_active_iff_severity_le_threshold_witness :
    (INFO < 2 ^ 32 ∧ sample_host.wf ∧ Location.none.ok Platform.posix) ∧
    (proxy_enable ⟨some INFO, false⟩ INFO = true ↔ INFO ≤ INFO) :=
  ⟨⟨by decide, sample_host_wf, trivial⟩,
    (proxy_active_iff_severity_le_threshold INFO INFO (by decide) false Platform.posix
      sample_host sample_host_wf 1 Location.none trivial sample_values empty_world).1⟩

/-- C2: when the severity exceeds the threshold, whatever the constructor shape
(no location, function, file and line; the file may lack a separator) and
whatever values are streamed, the constructor returns the stateless proxy with
every stream unchanged, streaming any number of the values leaves every stream
unchanged, and so does the destructor: nothing is written, no line terminator
either. -/
theorem suppressed_proxy_writes_nothing (b : Build) (pf : Platform) (S : Nat)
    (hgt : log_level b < S) (h : Host) (os : Stream) (loc : Location) (vs : List Value)
    (w : World) :
    ∃ p : proxy (proxy_enable b S),
      log b pf S h os loc w = some (p, w) ∧
      (∀ k, (p.stream (vs.take k) w).2 = w) ∧
      (p.stream vs w).1.dtor (p.stream vs w).2 = w ∧
      statement b pf S h os loc vs w = some w := by
  have he : proxy_enable b S = false := by
    unfold proxy_enable
    exact decide_eq_false (by omega)
  obtain ⟨p, hp, hs, hd⟩ := inert_ctor pf S h os loc w (proxy_enable b S) he
  refine ⟨p, hp, fun k => by rw [hs], ?_, statement_suppressed b pf S h os loc vs w he⟩
  rw [hs, hd]

/-- Witness for C2: a `TRACE` statement with a file location under threshold
`INFO`. -/
theorem suppressed_proxy_writes_nothing_witness :
    log_level ⟨some INFO, false⟩ < TRACE ∧
    statement ⟨some INFO, false⟩ Platform.posix TRACE sample_host 1
      (Location.source "main.cpp".toList 7) sample_values empty_world = some empty_world :=
  ⟨by decide,
    (suppressed_proxy_writes_nothing ⟨some INFO, false⟩ Platform.posix TRACE (by decide)
      sample_host 1 (Location.source "main.cpp".toList 7) sample_values empty_world).elim
      (fun _ hp => hp.2.2.2)⟩

/-- C3: an active proxy (severity at most the threshold) on a well-formed host,
with a location its constructor can format, puts the line header on its stream
once when constructed; every `operator<<` returns the same proxy and appends
the text of its value to that same stream; the destructor appends the line
terminator once.  After the whole statement the stream holds what it held
before, then the header, then the texts of the values in the order streamed,
then the terminator, and every other stream is untouched.  Streaming `"a="`,
`3`, `", b="`, `5` contributes exactly `a=3, b=5`. -/
theorem active_proxy_writes_header_values_terminator (b : Build) (pf : Platform) (S : Nat)
    (hle : S ≤ log_level b) (h : Host) (hw : h.wf) (os : Stream) (loc : Location)
    (hl : loc.ok pf) (vs : List Value) (w : World) :
    ∃ hdr, line_header pf S h loc = some hdr ∧
      (∃ p : proxy (proxy_enable b S),
        log b pf S h os loc w = some (p, Function.update w os (w os ++ hdr)) ∧
        (∀ v w1, p.shl v w1 = (p, Function.update w1 os (w1 os ++ v.text))) ∧
        (∀ w1, p.dtor w1 = Function.update w1 os (w1 os ++ [endl]))) ∧
      statement b pf S h os loc vs w =
        some (Function.update w os (w os ++ hdr ++ (vs.map Value.text).flatten ++ [endl])) ∧
      (sample_values.map Value.text).flatten = "a=3, b=5".toList := by
  have he : proxy_enable b S = true := by
    unfold proxy_enable
    exact decide_eq_true hle
  obtain ⟨hdr, hh⟩ := line_header_defined pf S h hw loc hl
  refine ⟨hdr, hh, active_ctor pf S h os loc w hdr hh (proxy_enable b S) he, ?_, by decide⟩
  rw [statement_active b pf S h os loc vs w he hdr hh]
  simp [put, List.append_assoc]

/-- Witness for C3: `"a="`, `3`, `", b="`, `5` streamed at `INFO` under
threshold `INFO`. -/
theorem active_proxy_writes_header_values_terminator_witness :
    (INFO ≤ log_level ⟨some INFO, false⟩ ∧ sample_host.wf ∧
      Location.none.ok Platform.posix) ∧
    ∃ hdr, line_header Platform.posix INFO sample_host Location.none = some hdr ∧
      statement ⟨some INFO, false⟩ Platform.posix INFO sample_host 1 Location.none
        sample_values empty_world =
        some (Function.update empty_world 1
          (empty_world 1 ++ hdr ++ (sample_values.map Value.text).flatten ++ [endl])) :=
  ⟨⟨by decide, sample_host_wf, trivial⟩,
    (active_proxy_writes_header_values_terminator ⟨some INFO, false⟩ Platform.posix INFO
      (by decide) sample_host sample_host_wf 1 Location.none trivial sample_values
      empty_world).elim (fun hdr hp => ⟨hdr, hp.1, hp.2.2.1⟩)⟩

/-! ## Header composition -/

theorem posix_header_standard (Level : Nat) (t : List Char) (h : Host) (hw : h.wf)
    (ht : t.length ≤ 9) (hn : NUL ∉ t)
    (hwh : ∀ buf size, level.write_header Level buf size = strncpy buf t size) :
    line_header Platform.posix Level h Location.none
      = some (h.timestamp ++ tid_text h.tid ++ t) := by
  obtain ⟨h1, h2, h3, h4⟩ := posix_split h hw
  have hd := fmt_u_length_le h.tid
  show c_str (header_buf Platform.posix Level h) = _
  unfold header_buf
  simp only
  rw [h1, h2, h3, hwh, strncpy_region _ _ _ (by omega) (by rw [h4]), ← List.append_assoc]
  apply c_str_terminated
  simp only [List.mem_append, not_or]
  exact ⟨⟨hw.2.1, tid_text_no_NUL h.tid⟩, hn⟩

theorem tid_text_of_lt (tid : Nat) (h : tid < 2 ^ 32) :
    tid_text tid = " [".toList ++ Nat.toDigits 10 tid ++ "]".toList := by
  unfold tid_text
  rw [fmt_u_of_lt tid h]

/-- C5: on POSIX, for every 19 character timestamp `ts` and every thread id
`tid` (an `unsigned`), the header an active proxy with no location writes at
severity `INFO` is `ts ++ " [" ++ decimal tid ++ "]" ++ " INFO - "`, and
likewise with `FATAL`, `ERROR`, `WARN`, `DEBUG`, `TRACE` in place of `INFO`. -/
theorem standard_header_is_timestamp_tid_level (h : Host) (hw : h.wf) :
    line_header Platform.posix INFO h Location.none = some (h.timestamp ++ " [".toList ++
      Nat.toDigits 10 h.tid ++ "]".toList ++ " INFO - ".toList) ∧
    line_header Platform.posix FATAL h Location.none = some (h.timestamp ++ " [".toList ++
      Nat.toDigits 10 h.tid ++ "]".toList ++ " FATAL - ".toList) ∧
    line_header Platform.posix ERROR h Location.none = some (h.timestamp ++ " [".toList ++
      Nat.toDigits 10 h.tid ++ "]".toList ++ " ERROR - ".toList) ∧
    line_header Platform.posix WARN h Location.none = some (h.timestamp ++ " [".toList ++
      Nat.toDigits 10 h.tid ++ "]".toList ++ " WARN - ".toList) ∧
    line_header Platform.posix DEBUG h Location.none = some (h.timestamp ++ " [".toList ++
      Nat.toDigits 10 h.tid ++ "]".toList ++ " DEBUG - ".toList) ∧
    line_header Platform.posix TRACE h Location.none = some (h.timestamp ++ " [".toList ++
      Nat.toDigits 10 h.tid ++ "]".toList ++ " TRACE - ".toList) := by
  have e := tid_text_of_lt h.tid hw.2.2.1
  refine ⟨?_, ?_, ?_, ?_, ?_, ?_⟩
  · rw [posix_header_standard INFO " INFO - ".toList h hw (by decide) (by decide)
      (fun _ _ => rfl), e]
    simp only [List.append_assoc]
  · rw [posix_header_standard FATAL " FATAL - ".toList h hw (by decide) (by decide)
      (fun _ _ => rfl), e]
    simp only [List.append_assoc]
  · rw [posix_header_standard ERROR " ERROR - ".toList h hw (by decide) (by decide)
      (fun _ _ => rfl), e]
    simp only [List.append_assoc]
  · rw [posix_header_standard WARN " WARN - ".toList h hw (by decide) (by decide)
      (fun _ _ => rfl), e]
    simp only [List.append_assoc]
  · rw [posix_header_standard DEBUG " DEBUG - ".toList h hw (by decide) (by decide)
      (fun _ _ => rfl), e]
    simp only [List.append_assoc]
  · rw [posix_header_standard TRACE " TRACE - ".toList h hw (by decide) (by decide)
      (fun _ _ => rfl), e]
    simp only [List.append_assoc]

/-- Witness for C5: the sample host gives
`2024-01-02 03:04:05 [1234] INFO - `. -/
theorem standard_header_is_timestamp_tid_level_witness :
    sample_host.wf ∧
    line_header Platform.posix INFO sample_host Location.none =
      some "2024-01-02 03:04:05 [1234] INFO - ".toList :=
  ⟨sample_host_wf, (standard_header_is_timestamp_tid_level sample_host sample_host_wf).1⟩

/-! ## The generic level below `2^31` -/

theorem fmt_d_of_lt (v : Nat) (hv : v < 2 ^ 31) : fmt_d v = Nat.toDigits 10 v := by
  unfold fmt_d
  have e : v % 2 ^ 32 = v := Nat.mod_eq_of_lt (by omega)
  rw [e, if_pos hv]

/-- For a level below `2^31` that is none of the six standard ones, the generic
`write_header` leaves ` CUSTOM(<decimal level>) - ` in a 128 byte array. -/
theorem custom_header_of_small_level (v : Nat) (hv : v < 2 ^ 31)
    (hn : v ≠ FATAL ∧ v ≠ ERROR ∧ v ≠ WARN ∧ v ≠ INFO ∧ v ≠ DEBUG ∧ v ≠ TRACE)
    (buf : List Char) (hb : buf.length = 128) :
    c_str (level.write_header v buf 128)
      = some (" CUSTOM(".toList ++ Nat.toDigits 10 v ++ ") - ".toList) := by
  obtain ⟨n1, n2, n3, n4, n5, n6⟩ := hn
  have hlen := toDigits_length_le v (by omega)
  unfold level.write_header
  rw [if_neg n1, if_neg n2, if_neg n3, if_neg n4, if_neg n5, if_neg n6, fmt_d_of_lt v hv,
    snprintf_fits _ _ 128 (by simp; omega) (by omega)]
  apply c_str_terminated
  have h := toDigits_no_NUL v
  simp only [List.mem_append, not_or]
  exact ⟨⟨by decide, h⟩, by decide⟩

/-! ## Where the code departs from the description -/

set_option maxRecDepth 100000

/-- C4: the generic `write_header` formats the unsigned level with `%d`.  For
17 and 314 the text is ` CUSTOM(17) - ` and ` CUSTOM(314) - `, but for
`ALL = 2^32 - 1` it is ` CUSTOM(-1) - `, not ` CUSTOM(4294967295) - `. -/
theorem custom_header_of_ALL_is_minus_one :
    c_str (level.write_header 17 (List.replicate 128 'x') 128)
      = some " CUSTOM(17) - ".toList ∧
    c_str (level.write_header 314 (List.replicate 128 'x') 128)
      = some " CUSTOM(314) - ".toList ∧
    c_str (level.write_header ALL (List.replicate 128 'x') 128)
      = some " CUSTOM(-1) - ".toList ∧
    c_str (level.write_header ALL (List.replicate 128 'x') 128)
      ≠ some (" CUSTOM(".toList ++ Nat.toDigits 10 ALL ++ ") - ".toList) := by
  refine ⟨by rfl, by rfl, by rfl, by decide⟩

/-- C6: the file argument is the result of `strrchr`, which points at the last
separator, not past it: for `INFO`, `/a/b/c.cpp`, line 42 the level and location
text is ` INFO {/c.cpp:42} - `, not ` INFO {c.cpp:42} - `. -/
theorem source_location_keeps_separator :
    strrchr "/a/b/c.cpp".toList (separator Platform.posix) = some "/c.cpp".toList ∧
    (level.write_header_src INFO (List.replicate 128 'x') 128
        (strrchr "/a/b/c.cpp".toList (separator Platform.posix)) 42).bind c_str
      = some " INFO \x7b/c.cpp:42\x7d - ".toList ∧
    line_header Platform.posix INFO sample_host (Location.source "/a/b/c.cpp".toList 42)
      = some "2024-01-02 03:04:05 [1234] INFO \x7b/c.cpp:42\x7d - ".toList ∧
    line_header Platform.posix INFO sample_host (Location.source "/a/b/c.cpp".toList 42)
      ≠ some "2024-01-02 03:04:05 [1234] INFO \x7bc.cpp:42\x7d - ".toList := by
  refine ⟨by rfl, by rfl, by rfl, by decide⟩

/-- C7: for `main.cpp`, which holds no separator, `strrchr` returns the null
pointer and the constructor hands it to the formatter: the header has no
defined text. -/
theorem source_without_separator_is_null :
    strrchr "main.cpp".toList (separator Platform.posix) = none ∧
    level.write_header_src INFO (List.replicate 128 'x') 128
      (strrchr "main.cpp".toList (separator Platform.posix)) 42 = none ∧
    line_header Platform.posix INFO sample_host (Location.source "main.cpp".toList 42)
      = none := by
  refine ⟨by rfl, by rfl, by rfl⟩

/-- C8: with capacity 24 the POSIX `build_header` stores the timestamp and the
four characters ` [12` that fit, yet returns 26, more than the capacity. -/
theorem build_header_returns_more_than_capacity :
    (posix.build_header sample_host (List.replicate 24 'x') 24).2 = 26 ∧
    c_str (posix.build_header sample_host (List.replicate 24 'x') 24).1
      = some "2024-01-02 03:04:05 [12".toList ∧
    ¬ (posix.build_header sample_host (List.replicate 24 'x') 24).2 ≤ 24 := by
  refine ⟨by rfl, by rfl, by decide⟩

/-- C9: with capacity 10 `strftime` reports 0, so the POSIX `build_header`
takes the branch that appends the thread id: the array holds ` [1234]` and the
value returned is 7, not 10.  With capacity 20 the timestamp fits exactly and
the value returned is 26, not 20. -/
theorem build_header_small_capacity_appends_tid :
    (posix.build_header sample_host (List.replicate 10 'x') 10).2 = 7 ∧
    c_str (posix.build_header sample_host (List.replicate 10 'x') 10).1
      = some " [1234]".toList ∧
    (posix.build_header sample_host (List.replicate 20 'x') 20).2 = 26 ∧
    c_str (posix.build_header sample_host (List.replicate 20 'x') 20).1
      = some "2024-01-02 03:04:05".toList := by
  refine ⟨by rfl, by rfl, by rfl, by rfl⟩

/-- C10: `level<FATAL>::write_header(buf, 9)` copies the nine characters of
` FATAL - ` with `strncpy` and stores no terminator: the first nine bytes hold
no `NUL`, the bytes after them are untouched, and a twelve byte array of `x`
reads as no C string at all. -/
theorem fatal_header_capacity_nine_unterminated :
    level.write_header FATAL (List.replicate 12 'x') 9 = " FATAL - xxx".toList ∧
    NUL ∉ (level.write_header FATAL (List.replicate 12 'x') 9).take 9 ∧
    c_str (level.write_header FATAL (List.replicate 12 'x') 9) = none ∧
    c_str (level.write_header_fun FATAL (List.replicate 12 'x') 9 "main".toList)
      = some " FATAL \x7b".toList := by
  refine ⟨by rfl, by decide, by rfl, by rfl⟩

/-! ## The function location in the 128 byte array -/

theorem write_header_fun_eq (Level : Nat) (buf : List Char) (size : Nat) (name : List Char) :
    level.write_header_fun Level buf size name = (snprintf buf size (fun_text Level name)).1 := by
  unfold level.write_header_fun fun_text
  split_ifs <;> rfl

theorem fmt_d_no_NUL (v : Nat) : NUL ∉ fmt_d v := by
  unfold fmt_d
  split_ifs
  · exact toDigits_no_NUL _
  · intro hm
    rcases List.mem_cons.1 hm with e | e
    · exact absurd e (by decide)
    · exact toDigits_no_NUL _ e

theorem fun_text_no_NUL (Level : Nat) (name : List Char) (hn : NUL ∉ name) :
    NUL ∉ fun_text Level name := by
  have hd := fmt_d_no_NUL Level
  unfold fun_text
  split_ifs
  all_goals
    simp only [List.mem_append, not_or]
    first
      | exact ⟨⟨by decide, hn⟩, by decide⟩
      | exact ⟨⟨⟨⟨by decide, hd⟩, by decide⟩, hn⟩, by decide⟩

/-- The header of the constructor `proxy(os, fun)` on POSIX: timestamp, thread
id, and as much of the level and function text as the rest of the array holds
in front of its terminator. -/
theorem posix_header_fun (Level : Nat) (h : Host) (hw : h.wf) (name : List Char)
    (hn : NUL ∉ name) :
    line_header Platform.posix Level h (Location.function name)
      = some (h.timestamp ++ tid_text h.tid ++
          (fun_text Level name).take (105 - (fmt_u h.tid).length)) := by
  obtain ⟨h1, h2, h3, h4⟩ := posix_split h hw
  have hd := fmt_u_length_le h.tid
  show c_str (header_buf_fun Platform.posix Level h name) = _
  unfold header_buf_fun
  simp only
  rw [h1, h2, h3, write_header_fun_eq, snprintf_region _ _ _ (by omega) (by rw [h4]),
    ← List.append_assoc]
  have e : 106 - (fmt_u h.tid).length - 1 = 105 - (fmt_u h.tid).length := by omega
  rw [e]
  apply c_str_terminated
  simp only [List.mem_append, not_or]
  exact ⟨⟨hw.2.1, tid_text_no_NUL h.tid⟩,
    fun hm => fun_text_no_NUL Level name hn (List.mem_of_mem_take hm)⟩

/-- C11: on POSIX, for every severity, every well-formed host (19 character
timestamp, thread id below `2^32`, 128 byte array) and every function name, the
offset `build_header` returns is below 128, so the remaining capacity passed on
is `128 - off` without wrap-around; the header the active constructor
`proxy(os, fun)` puts on the stream has at most 127 characters, is an initial
segment of timestamp ++ ` [tid]` ++ level-and-function text, and equals that
composition whenever the composition has at most 127 characters. -/
theorem function_header_fits_and_truncates (Level : Nat) (h : Host) (hw : h.wf)
    (name : List Char) (hn : NUL ∉ name) :
    (build_header Platform.posix h h.stack 128).2 < 128 ∧
    remaining (build_header Platform.posix h h.stack 128).2
      = 128 - (build_header Platform.posix h h.stack 128).2 ∧
    ∃ hdr, line_header Platform.posix Level h (Location.function name) = some hdr ∧
      (∀ os w, proxy.ctor Platform.posix Level h true os (Location.function name) w
        = some (proxy.active os, Function.update w os (w os ++ hdr))) ∧
      hdr.length ≤ 127 ∧
      hdr <+: h.timestamp ++ (" [".toList ++ Nat.toDigits 10 h.tid ++ "]".toList) ++
        fun_text Level name ∧
      ((h.timestamp ++ (" [".toList ++ Nat.toDigits 10 h.tid ++ "]".toList) ++
          fun_text Level name).length ≤ 127 →
        hdr = h.timestamp ++ (" [".toList ++ Nat.toDigits 10 h.tid ++ "]".toList) ++
          fun_text Level name) := by
  have hoff := build_header_off_le Platform.posix h hw
  have hd := fmt_u_length_le h.tid
  have htl := tid_text_length h.tid
  have hts := hw.1
  have hh := posix_header_fun Level h hw name hn
  have e := tid_text_of_lt h.tid hw.2.2.1
  refine ⟨by omega, remaining_of_le _ (by omega), _, hh, ?_, ?_, ?_, ?_⟩
  · intro os w
    simp only [proxy.ctor, hh]
    rfl
  · simp only [List.length_append, List.length_take, hts, htl]
    omega
  · rw [← e]
    exact ⟨(fun_text Level name).drop (105 - (fmt_u h.tid).length), by
      rw [List.append_assoc, List.append_assoc, List.take_append_drop, List.append_assoc]⟩
  · rw [← e]
    intro hlen
    simp only [List.length_append, hts, htl] at hlen
    rw [List.take_of_length_le (by omega)]

/-- Witness for C11: `INFO` with the function name `add_two_integers` gives
`2024-01-02 03:04:05 [1234] INFO {add_two_integers} - `. -/
theorem function_header_fits_and_truncates_witness :
    (sample_host.wf ∧ NUL ∉ "add_two_integers".toList) ∧
    (build_header Platform.posix sample_host sample_host.stack 128).2 < 128 ∧
    line_header Platform.posix INFO sample_host (Location.function "add_two_integers".toList)
      = some "2024-01-02 03:04:05 [1234] INFO \x7badd_two_integers\x7d - ".toList :=
  ⟨⟨sample_host_wf, by decide⟩,
    (function_header_fits_and_truncates INFO sample_host sample_host_wf
      "add_two_integers".toList (by decide)).1,
    (function_header_fits_and_truncates INFO sample_host sample_host_wf
      "add_two_integers".toList (by decide)).2.2.elim
      (fun _ hp => hp.1.trans (congrArg some (hp.2.2.2.2 (by decide))))⟩

/-- C12: the two `build_header` implementations leave the same bytes in the
array for every host, array and capacity, but the Win32 one returns
`off + snprintf(...) + 1` where the POSIX one returns `off + snprintf(...)`:
on the sample host with capacity 128 POSIX returns 26 and Win32 returns 27.
The level header written at the Win32 offset lies behind the terminator, so an
`INFO` line starts `2024-01-02 03:04:05 [1234] INFO - ` on POSIX and only
`2024-01-02 03:04:05 [1234]` on Win32. -/
theorem win32_build_header_returns_one_more :
    (∀ (h : Host) (buf : List Char) (size : Nat),
      (win32.build_header h buf size).1 = (posix.build_header h buf size).1) ∧
    (posix.build_header sample_host sample_host.stack 128).2 = 26 ∧
    (win32.build_header sample_host sample_host.stack 128).2 = 27 ∧
    line_header Platform.posix INFO sample_host Location.none
      = some "2024-01-02 03:04:05 [1234] INFO - ".toList ∧
    line_header Platform.win32 INFO sample_host Location.none
      = some "2024-01-02 03:04:05 [1234]".toList := by
  refine ⟨?_, by rfl, by rfl, by rfl, by rfl⟩
  intro h buf size
  unfold win32.build_header posix.build_header
  simp only
  split_ifs <;> rfl
